import Mathlib

/-!
Shallow embedding of the demand-expansion core of `src/streamlit_app.py`
(repository estoque-completo-v4) and proofs about the claims of its
natural-language specification.

Conventions of the embedding:
* Python `str` values are Lean `String`s, but every string operation the
  source uses (`strip`, `lower`, `upper`, `split`, `replace`, numeric
  parsing) is re-implemented over `String.data : List Char`, because the
  embedding must be evaluable; each such function is documented with the
  Python operation it models.
* Machine numbers: the quantity and stock columns are coerced with
  `pd.to_numeric(...).fillna(0)` / `safe_int` in the source before any
  arithmetic, so quantities are modelled as `Int`.
* Python `dict` built by repeated assignment is modelled by `dlookup`,
  an association-list lookup in which the LAST binding wins.
* pandas `groupby(...).sum()` is modelled by `groupSum`, which sorts the
  distinct keys (pandas sorts group keys ascending) and sums quantities.
-/

/-- Model of the Python values that reach the numeric helpers of the app:
`None`, a float `NaN`, an integer-valued number, or a string.  (General
floats do not occur on the paths the claims touch: every numeric column is
integer-coerced before use; `NaN` is kept as a separate atom.) -/
inductive PyVal where
  | none : PyVal
  | nan : PyVal
  | int : Int → PyVal
  | str : String → PyVal
deriving DecidableEq, Repr

/-- Model of Python `str.strip()` on a character list (drops leading and
trailing whitespace). -/
def pyStrip (l : List Char) : List Char :=
  ((l.dropWhile Char.isWhitespace).reverse.dropWhile Char.isWhitespace).reverse

/-- Model of Python `str.strip()` returning a `String`. -/
def strStrip (s : String) : String := ⟨pyStrip s.data⟩

/-- Model of Python `str.lower()` (ASCII repertoire, as in the source
where it is applied to column flags such as `eh_kit` and blank markers). -/
def strLower (s : String) : String := ⟨s.data.map Char.toLower⟩

/-- Model of Python `str.split(sep)` for a one-character separator
(the source only ever splits on a comma or a dot). -/
def splitOnChar (sep : Char) (l : List Char) : List (List Char) :=
  match l with
  | [] => [[]]
  | c :: r =>
    match splitOnChar sep r with
    | [] => [[]]
    | h :: t => if c = sep then [] :: h :: t else (c :: h) :: t

/-- Model of Python `str.replace(",", ".")` (one-character pattern). -/
def replaceChar (a b : Char) (s : String) : String :=
  ⟨s.data.map (fun c => if c = a then b else c)⟩

/-- Digits of a decimal literal to a `Nat` (helper of `parseDec`). -/
def digitsToNat (l : List Char) : Nat :=
  l.foldl (fun acc c => acc * 10 + (c.toNat - 48)) 0

/-- Model of Python `int(float(s))` for plain decimal literals: optional
surrounding whitespace, optional sign, digits with an optional fractional
part; `int` truncates toward zero, so the fractional digits are dropped.
Any other shape raises in Python and is `Option.none` here.  (Exponent,
`inf`/`nan` keyword and underscore-separator literal forms are outside the
modelled repertoire.) -/
def parseDec (s : String) : Option Int :=
  let t := pyStrip s.data
  let (sign, u) : Int × List Char :=
    match t with
    | '-' :: r => (-1, r)
    | '+' :: r => (1, r)
    | r => (1, r)
  match splitOnChar '.' u with
  | [a] =>
    if a ≠ [] ∧ a.all Char.isDigit then some (sign * digitsToNat a) else Option.none
  | [a, b] =>
    if (a ++ b) ≠ [] ∧ a.all Char.isDigit ∧ b.all Char.isDigit then
      some (sign * digitsToNat a)
    else Option.none
  | _ => Option.none

/-- Blank-like strings that `safe_int` maps to the default
(`{"", "nan", "none", "null", "n/a"}` in the source, line 35). -/
def blankStrings : List String := ["", "nan", "none", "null", "n/a"]

/-- Embedding of `safe_int` (streamlit_app.py lines 28-39) with the
default factored out: `Option.none` exactly when the source would return
its `default` argument (guard clauses or the `except` branch of
`int(float(str(x).replace(",", ".")))`). -/
def safe_int_opt : PyVal → Option Int
  | .none => Option.none
  | .nan => Option.none
  | .int n => some n
  | .str s =>
    if strLower (strStrip s) ∈ blankStrings then Option.none
    else parseDec (replaceChar ',' '.' s)

/-- Embedding of `safe_int(x, default)` (streamlit_app.py lines 28-39). -/
def safe_int (x : PyVal) (default : Int) : Int :=
  (safe_int_opt x).getD default

/-- Model of Python `str(value)`. -/
def pyStr : PyVal → String
  | .none => "None"
  | .nan => "nan"
  | .int n => toString n
  | .str s => s

/-- Embedding of `parse_int_list` (streamlit_app.py lines 41-55):
split on commas, strip each part, skip empty parts, keep the parts that
`safe_int(p, None)` parses. -/
def parse_int_list (value : PyVal) : List Int :=
  match value with
  | .none => []
  | .nan => []
  | v =>
    let parts := (splitOnChar ',' (pyStr v).data).map (fun p => (⟨pyStrip p⟩ : String))
    (parts.filter (fun p => p != "")).filterMap (fun p => safe_int_opt (.str p))

/-- Combining diacritical marks (Unicode block U+0300 to U+036F), the test
modelling `unicodedata.combining(ch) != 0` for the repertoire below. -/
def isCombining (c : Char) : Bool := 0x300 ≤ c.toNat && c.toNat ≤ 0x36F

/-- NFKD decompositions for the accented Latin repertoire of the app
(Portuguese product codes).  The marks used are the combining grave
(U+0300), acute (U+0301), circumflex (U+0302), tilde (U+0303), diaeresis
(U+0308) and cedilla (U+0327).  The table also carries the compatibility
decomposition of the micro sign (U+00B5) to the Greek small mu (U+03BC,
written by code point to keep the two mu characters apart), which real
NFKD performs and which witnesses that normalization is not confined to
the Latin alphabet. -/
def nfkdExt : Char → List Char
  | 'à' => ['a', Char.ofNat 0x300]
  | 'á' => ['a', Char.ofNat 0x301]
  | 'â' => ['a', Char.ofNat 0x302]
  | 'ã' => ['a', Char.ofNat 0x303]
  | 'ä' => ['a', Char.ofNat 0x308]
  | 'è' => ['e', Char.ofNat 0x300]
  | 'é' => ['e', Char.ofNat 0x301]
  | 'ê' => ['e', Char.ofNat 0x302]
  | 'ë' => ['e', Char.ofNat 0x308]
  | 'ì' => ['i', Char.ofNat 0x300]
  | 'í' => ['i', Char.ofNat 0x301]
  | 'î' => ['i', Char.ofNat 0x302]
  | 'ï' => ['i', Char.ofNat 0x308]
  | 'ò' => ['o', Char.ofNat 0x300]
  | 'ó' => ['o', Char.ofNat 0x301]
  | 'ô' => ['o', Char.ofNat 0x302]
  | 'õ' => ['o', Char.ofNat 0x303]
  | 'ö' => ['o', Char.ofNat 0x308]
  | 'ù' => ['u', Char.ofNat 0x300]
  | 'ú' => ['u', Char.ofNat 0x301]
  | 'û' => ['u', Char.ofNat 0x302]
  | 'ü' => ['u', Char.ofNat 0x308]
  | 'ç' => ['c', Char.ofNat 0x327]
  | 'ñ' => ['n', Char.ofNat 0x303]
  | 'À' => ['A', Char.ofNat 0x300]
  | 'Á' => ['A', Char.ofNat 0x301]
  | 'Â' => ['A', Char.ofNat 0x302]
  | 'Ã' => ['A', Char.ofNat 0x303]
  | 'Ä' => ['A', Char.ofNat 0x308]
  | 'È' => ['E', Char.ofNat 0x300]
  | 'É' => ['E', Char.ofNat 0x301]
  | 'Ê' => ['E', Char.ofNat 0x302]
  | 'Ë' => ['E', Char.ofNat 0x308]
  | 'Ì' => ['I', Char.ofNat 0x300]
  | 'Í' => ['I', Char.ofNat 0x301]
  | 'Î' => ['I', Char.ofNat 0x302]
  | 'Ï' => ['I', Char.ofNat 0x308]
  | 'Ò' => ['O', Char.ofNat 0x300]
  | 'Ó' => ['O', Char.ofNat 0x301]
  | 'Ô' => ['O', Char.ofNat 0x302]
  | 'Õ' => ['O', Char.ofNat 0x303]
  | 'Ö' => ['O', Char.ofNat 0x308]
  | 'Ù' => ['U', Char.ofNat 0x300]
  | 'Ú' => ['U', Char.ofNat 0x301]
  | 'Û' => ['U', Char.ofNat 0x302]
  | 'Ü' => ['U', Char.ofNat 0x308]
  | 'Ç' => ['C', Char.ofNat 0x327]
  | 'Ñ' => ['N', Char.ofNat 0x303]
  | 'µ' => [Char.ofNat 0x3BC]
  | c => [c]

/-- Model of `unicodedata.normalize('NFKD', ...)` per character: NFKD is
the identity on ASCII (a fact of Unicode), and decomposes the accented
repertoire via `nfkdExt`; characters outside the modelled repertoire are
left unchanged. -/
def nfkd (c : Char) : List Char := if c.toNat ≤ 0x7F then [c] else nfkdExt c

/-- Model of `s.replace('ß', 'ss')` (streamlit_app.py line 69). -/
def replaceSS : List Char → List Char
  | [] => []
  | c :: r => if c = 'ß' then 's' :: 's' :: replaceSS r else c :: replaceSS r

/-- Model of Python `ch.isalnum()`.  Python's test is Unicode-wide; the
model covers the ASCII alphanumerics plus the non-ASCII alphanumerics of
the modelled repertoire — the Greek mu pair (U+03BC/U+039C) and a CJK
ideograph (U+4E2D) — enough to witness that non-Latin alphanumerics pass
this filter.  The accented Latin letters are also alphanumeric in Python,
but they have been decomposed into an ASCII base plus combining marks
before this filter runs. -/
def pyAlnum (c : Char) : Bool :=
  (0x30 ≤ c.toNat && c.toNat ≤ 0x39) || (0x41 ≤ c.toNat && c.toNat ≤ 0x5A) ||
    (0x61 ≤ c.toNat && c.toNat ≤ 0x7A) || c == 'μ' || c == 'Μ' || c == '中'

/-- Model of Python `str.upper()` on the characters that can reach it:
the ASCII case map (`Char.toUpper`) plus the one cased non-ASCII letter
of the modelled repertoire, the Greek small mu (produced by the NFKD
decomposition of the micro sign), which Python uppercases to the Greek
capital mu. -/
def pyUpper (c : Char) : Char := if c = 'μ' then 'Μ' else c.toUpper

/-- Embedding of `normalize_key` (streamlit_app.py lines 57-71) on a
character list: NFKD-decompose, drop combining marks, replace `ß` by
`ss`, keep only alphanumerics and the hyphen, uppercase, strip.
`pyUpper` is Python `str.upper()` on the characters that survive the
filter. -/
def normChars (l : List Char) : List Char :=
  pyStrip (((replaceSS (((l.map nfkd).flatten).filter (fun c => !isCombining c))).filter
    (fun c => pyAlnum c || c == '-')).map pyUpper)

/-- Embedding of `normalize_key` (streamlit_app.py lines 57-71).  The
`s is None` guard of the source is outside the model: every value passed
to it in the modelled paths is a string. -/
def normalize_key (s : String) : String := ⟨normChars s.data⟩

/-- Characters that can appear in a normalized key: ASCII digits, ASCII
uppercase letters, and the hyphen. -/
def keyChar (c : Char) : Bool :=
  (0x30 ≤ c.toNat && c.toNat ≤ 0x39) || (0x41 ≤ c.toNat && c.toNat ≤ 0x5A) || c == '-'

/-- Characters that can appear in the output of `normChars`: the key
alphabet `keyChar` plus the non-ASCII alphanumerics of the modelled
repertoire in their uppercased form. -/
def stableChar (c : Char) : Bool := keyChar c || c == 'Μ' || c == '中'

/-- The Latin repertoire to which the amended C10 is scoped: ASCII
characters, the letter ß, and the characters whose modelled NFKD
decomposition consists of ASCII characters and combining marks (the
accented Latin letters of `nfkdExt`). -/
def latinChar (c : Char) : Bool :=
  c.toNat ≤ 0x7F || c == 'ß' ||
    (nfkd c).all (fun d => d.toNat ≤ 0x7F || isCombining d)

/-- A product row of the catalog spreadsheet after `carregar_produtos`
(streamlit_app.py lines 77-107): the numeric stock column has been
coerced by `pd.to_numeric(...).fillna(0)`, the kit columns are raw
strings (`astype(str)`).  The columns the engine never reads
(`categoria`, `estoque_min`, `estoque_max`) are omitted. -/
structure Produto where
  codigo : String
  nome : String
  estoque_atual : Int
  eh_kit : String
  componentes : String
  quantidades : String
deriving DecidableEq, Repr

/-- The derived `codigo_key` column (streamlit_app.py line 105). -/
def pkey (p : Produto) : String := normalize_key p.codigo

/-- A row of the expanded demand table produced by `expandir_kits`
(columns `codigo_key`, `quantidade`; the display-only columns
`codigo_canonical`/`codigo` of lines 168-169 and 185-186, which no
computation below reads, are omitted from the model). -/
structure Linha where
  codigo_key : String
  quantidade : Int
deriving DecidableEq, Repr

/-- A row of the faltantes report (streamlit_app.py lines 653-671); the
constant `kit_original` column is omitted. -/
structure FaltaRow where
  codigo : String
  produto : String
  estoque_atual : Int
  qtd_necessaria : Int
  falta : Int
  tipo : String
deriving DecidableEq, Repr

/-- Lookup in a Python `dict` built by successive assignments from an
association list: the LAST binding for a key wins. -/
def dlookup {α : Type} : List (String × α) → String → Option α
  | [], _ => Option.none
  | (k₀, v) :: rest, k =>
    match dlookup rest k with
    | some r => some r
    | Option.none => if k₀ = k then some v else Option.none

/-- Component keys of a kit row (streamlit_app.py line 160):
`[normalize_key(c.strip()) for c in str(componentes).split(',') if c.strip()]`. -/
def compsOf (p : Produto) : List String :=
  ((((splitOnChar ',' p.componentes.data).map
      (fun c => (⟨pyStrip c⟩ : String)))).filter (fun c => c != "")).map normalize_key

/-- Component quantities of a kit row (streamlit_app.py line 161). -/
def quantsOf (p : Produto) : List Int := parse_int_list (.str p.quantidades)

/-- The `eh_kit` test (streamlit_app.py line 158):
`str(row.get('eh_kit', '')).strip().lower() == 'sim'`. -/
def kitRowSim (p : Produto) : Bool := strLower (strStrip p.eh_kit) == "sim"

/-- One iteration of the kit-table loop (streamlit_app.py lines 157-163):
a row yields a kit entry exactly when it is flagged `sim` and
`comps and quants and len(comps) == len(quants)` holds; the entry pairs
the component keys with their multipliers (`zip`). -/
def kitEntry (p : Produto) : Option (String × List (String × Int)) :=
  if kitRowSim p ∧ compsOf p ≠ [] ∧ quantsOf p ≠ [] ∧
      (compsOf p).length = (quantsOf p).length then
    some (pkey p, (compsOf p).zip (quantsOf p))
  else Option.none

/-- The kit dictionary `kits` (streamlit_app.py lines 156-163), as the
association list of entries in row order; `dlookup` gives it the
last-binding-wins dict semantics. -/
def kitsOf (ps : List Produto) : List (String × List (String × Int)) :=
  ps.filterMap kitEntry

/-- One iteration of the expansion loop (streamlit_app.py lines 173-180):
a demand line whose key is a kit fans out to the kit components with
quantity `qty * comp_qty`; any other line passes through under its
normalized key.  (`safe_int` on `quantidade`/`comp_qty` is the identity
here: both are already integers.) -/
def expandLinha (kits : List (String × List (String × Int))) (l : String × Int) :
    List Linha :=
  match dlookup kits (normalize_key l.1) with
  | some comps => comps.map (fun cm => ⟨cm.1, l.2 * cm.2⟩)
  | Option.none => [⟨normalize_key l.1, l.2⟩]

/-- Total quantity accumulated on key `k` in a list of demand lines. -/
def totalFor (k : String) (l : List Linha) : Int :=
  ((l.filter (fun x => x.codigo_key == k)).map (fun x => x.quantidade)).sum

/-- The distinct keys of a list of demand lines, in first-seen order. -/
def keysOf (l : List Linha) : List String := (l.map (fun x => x.codigo_key)).dedup

/-- Insertion into a sorted key list (ascending). -/
def insertSorted (k : String) : List String → List String
  | [] => [k]
  | x :: xs => if k.data < x.data then k :: x :: xs else x :: insertSorted k xs

/-- Ascending sort of a key list (pandas `groupby` sorts group keys). -/
def sortKeys (l : List String) : List String := l.foldr insertSorted []

/-- Model of `df.groupby('codigo_key', as_index=False)['quantidade'].sum()`
(streamlit_app.py line 183): one row per distinct key, keys ascending,
quantities summed. -/
def groupSum (l : List Linha) : List Linha :=
  (sortKeys (keysOf l)).map (fun k => ⟨k, totalFor k l⟩)

/-- Embedding of `expandir_kits` (streamlit_app.py lines 148-187).  With
an empty kit table the demand table is returned as-is under normalized
keys (lines 165-170, no aggregation); otherwise every line is expanded by
`expandLinha` and the result is aggregated per key (lines 172-183).
(When the kit table is nonempty the source builds `linhas` and calls
`groupby`; on an empty demand table that call raises inside the callers
`try` blocks — the claims below only concern nonempty demand tables.) -/
def expandir_kits (ps : List Produto) (fatura : List (String × Int)) : List Linha :=
  let kits := kitsOf ps
  if kits = [] then fatura.map (fun l => ⟨normalize_key l.1, l.2⟩)
  else groupSum (fatura.flatMap (expandLinha kits))

/-- The stock dictionary of the faltantes report (streamlit_app.py line
644): `{row['codigo_key']: row for _, row in produtos_df.iterrows()}` —
a dict comprehension, so a duplicated key keeps the LAST row.  The dict
`est_map` of `processar_faturamento` (lines 246-253) is built by the same
per-row assignment and has the same semantics. -/
def estoque_map (ps : List Produto) (k : String) : Option Produto :=
  dlookup (ps.map (fun p => (pkey p, p))) k

/-- One iteration of the faltantes loop (streamlit_app.py lines 646-671):
a registered code is reported when `est < q`, with `falta = q - est` on
the raw stock value; an unregistered code is always reported with
`falta = q`.  (`safe_int` on the already-integer fields is the identity.) -/
def faltaLine (ps : List Produto) (l : Linha) : List FaltaRow :=
  match estoque_map ps l.codigo_key with
  | some prod =>
    if prod.estoque_atual < l.quantidade then
      [⟨prod.codigo, prod.nome, prod.estoque_atual, l.quantidade,
        l.quantidade - prod.estoque_atual, "Produto/Componente"⟩]
    else []
  | Option.none =>
    [⟨l.codigo_key, "NÃO CADASTRADO", 0, l.quantidade, l.quantidade,
      "Não cadastrado"⟩]

/-- The faltantes report body (streamlit_app.py lines 643-671). -/
def faltantes (ps : List Produto) (v : List Linha) : List FaltaRow :=
  v.flatMap (faltaLine ps)

/-- Replace the stock column of every row (used to state that kit
expansion is independent of stock). -/
def updEst (g : Produto → Int) (p : Produto) : Produto :=
  { p with estoque_atual := g p }

/-- Sum of the multipliers attached to component key `k` in a kit entry. -/
def sumMults (k : String) (comps : List (String × Int)) : Int :=
  ((comps.filter (fun cm => cm.1 == k)).map (fun cm => cm.2)).sum

/-- The contribution of one demand line to key `k` under a kit table:
`quantity * (sum of multipliers of k)` if the line is a kit, its own
quantity if the line passes through with key `k`, zero otherwise. -/
def lineContrib (kits : List (String × List (String × Int))) (k : String)
    (l : String × Int) : Int :=
  match dlookup kits (normalize_key l.1) with
  | some comps => l.2 * sumMults k comps
  | Option.none => if normalize_key l.1 = k then l.2 else 0

/-! ### Helper lemmas about accumulation and grouping -/

theorem totalFor_nil (k : String) : totalFor k [] = 0 := rfl

theorem totalFor_cons (k : String) (x : Linha) (l : List Linha) :
    totalFor k (x :: l) =
      (if x.codigo_key = k then x.quantidade else 0) + totalFor k l := by
  by_cases h : x.codigo_key = k
  · simp [totalFor, List.filter_cons, h]
  · simp [totalFor, List.filter_cons, h]

theorem totalFor_append (k : String) (l₁ l₂ : List Linha) :
    totalFor k (l₁ ++ l₂) = totalFor k l₁ + totalFor k l₂ := by
  induction l₁ with
  | nil => simp [totalFor]
  | cons a t ih => rw [List.cons_append, totalFor_cons, ih, totalFor_cons]; ring

theorem totalFor_flatMap {α : Type} (k : String) (f : α → List Linha) (l : List α) :
    totalFor k (l.flatMap f) = (l.map (fun a => totalFor k (f a))).sum := by
  induction l with
  | nil => rfl
  | cons a t ih => rw [List.flatMap_cons, totalFor_append, ih, List.map_cons, List.sum_cons]

theorem totalFor_eq_zero_of_not_mem (k : String) (l : List Linha)
    (h : k ∉ l.map (fun x => x.codigo_key)) : totalFor k l = 0 := by
  induction l with
  | nil => rfl
  | cons a t ih =>
    rw [totalFor_cons, if_neg (by simp at h; exact fun e => h.1 e.symm),
      ih (by simp at h ⊢; exact h.2), add_zero]

theorem totalFor_mapKeys (ks : List String) (f : String → Int) (k : String)
    (hnd : ks.Nodup) :
    totalFor k (ks.map (fun k' => ⟨k', f k'⟩)) = if k ∈ ks then f k else 0 := by
  induction ks with
  | nil => rfl
  | cons a t ih =>
    rw [List.map_cons, totalFor_cons]
    by_cases h : a = k
    · subst h
      rw [if_pos rfl, if_pos (List.mem_cons_self a t),
        ih (List.Nodup.of_cons hnd), if_neg ((List.nodup_cons.1 hnd).1), add_zero]
    · rw [if_neg h, ih (List.Nodup.of_cons hnd), zero_add]
      by_cases hm : k ∈ t
      · rw [if_pos hm, if_pos (List.mem_cons_of_mem a hm)]
      · rw [if_neg hm, if_neg (by simp [h, hm]; exact fun e => h e.symm)]

theorem insertSorted_perm (k : String) (l : List String) :
    List.Perm (insertSorted k l) (k :: l) := by
  induction l with
  | nil => exact List.Perm.refl _
  | cons a t ih =>
    rw [insertSorted]
    by_cases h : k.data < a.data
    · rw [if_pos h]
    · rw [if_neg h]
      exact (ih.cons a).trans (List.Perm.swap k a t)

theorem sortKeys_perm (l : List String) : List.Perm (sortKeys l) l := by
  induction l with
  | nil => exact List.Perm.refl _
  | cons a t ih =>
    exact (insertSorted_perm a (sortKeys t)).trans (ih.cons a)

theorem totalFor_groupSum (k : String) (l : List Linha) :
    totalFor k (groupSum l) = totalFor k l := by
  rw [groupSum]
  have hperm := sortKeys_perm (keysOf l)
  have hnd : (sortKeys (keysOf l)).Nodup :=
    hperm.symm.nodup (List.nodup_dedup _)
  rw [totalFor_mapKeys _ _ _ hnd]
  by_cases hm : k ∈ sortKeys (keysOf l)
  · rw [if_pos hm]
  · rw [if_neg hm]
    have : k ∉ l.map (fun x => x.codigo_key) := by
      intro hk
      exact hm (hperm.mem_iff.2 (List.mem_dedup.2 hk))
    exact (totalFor_eq_zero_of_not_mem k l this).symm

theorem totalFor_mapMul (k : String) (q : Int) (comps : List (String × Int)) :
    totalFor k (comps.map (fun cm => ⟨cm.1, q * cm.2⟩)) = q * sumMults k comps := by
  induction comps with
  | nil => simp [totalFor, sumMults]
  | cons cm cs ih =>
    rw [List.map_cons, totalFor_cons]
    by_cases h : cm.1 = k
    · rw [if_pos h]
      have hs : sumMults k (cm :: cs) = cm.2 + sumMults k cs := by
        simp [sumMults, List.filter_cons, h]
      rw [hs, mul_add]
      exact congrArg (q * cm.2 + ·) ih
    · rw [if_neg h, zero_add]
      have hs : sumMults k (cm :: cs) = sumMults k cs := by
        simp [sumMults, List.filter_cons, h]
      rw [hs]
      exact ih

theorem totalFor_expandLinha (kits : List (String × List (String × Int)))
    (k : String) (l : String × Int) :
    totalFor k (expandLinha kits l) = lineContrib kits k l := by
  rw [expandLinha, lineContrib]
  cases dlookup kits (normalize_key l.1) with
  | none =>
    rw [totalFor_cons, totalFor_nil, add_zero]
  | some comps => exact totalFor_mapMul k l.2 comps

theorem totalFor_expandir (ps : List Produto) (f : List (String × Int)) (k : String) :
    totalFor k (expandir_kits ps f) = (f.map (lineContrib (kitsOf ps) k)).sum := by
  by_cases hk : kitsOf ps = []
  · simp only [expandir_kits, hk, if_true]
    induction f with
    | nil => rfl
    | cons a t ih =>
      rw [List.map_cons, totalFor_cons, List.map_cons, List.sum_cons, ih]
      rfl
  · simp only [expandir_kits, if_neg hk]
    rw [totalFor_groupSum, totalFor_flatMap]
    exact congrArg List.sum
      (List.map_congr_left (fun l _ => totalFor_expandLinha (kitsOf ps) k l))

/-! ### Helper lemmas about dictionary semantics and stock independence -/

theorem dlookup_append_single {α : Type} (l : List (String × α)) (k' : String)
    (v : α) (k : String) :
    dlookup (l ++ [(k', v)]) k = if k' = k then some v else dlookup l k := by
  induction l with
  | nil =>
    by_cases h : k' = k
    · simp [dlookup, h]
    · simp [dlookup, h]
  | cons a t ih =>
    rw [List.cons_append]
    show (match dlookup (t ++ [(k', v)]) k with
      | some r => some r
      | Option.none => if a.1 = k then some a.2 else Option.none) = _
    rw [ih]
    by_cases h : k' = k
    · rw [if_pos h, if_pos h]
    · rw [if_neg h, if_neg h]
      rfl

theorem kitEntry_updEst (g : Produto → Int) (p : Produto) :
    kitEntry (updEst g p) = kitEntry p := by
  cases p
  rfl

theorem kitsOf_updEst (g : Produto → Int) (ps : List Produto) :
    kitsOf (ps.map (updEst g)) = kitsOf ps := by
  rw [kitsOf, kitsOf, List.filterMap_map]
  exact List.filterMap_congr (fun p _ => kitEntry_updEst g p)

/-! ### Helper lemmas about the normalization pipeline -/

theorem toNat_ofNat_valid (n : Nat) (h : n.isValidChar) : (Char.ofNat n).toNat = n := by
  simp only [Char.ofNat, dif_pos h, Char.ofNatAux, Char.toNat, UInt32.toNat]
  simp [BitVec.toNat_ofNatLt]

theorem keyChar_cases (c : Char) (h : keyChar c = true) :
    (48 ≤ c.toNat ∧ c.toNat ≤ 57) ∨ (65 ≤ c.toNat ∧ c.toNat ≤ 90) ∨ c = '-' := by
  simp only [keyChar, Bool.or_eq_true, Bool.and_eq_true, decide_eq_true_eq,
    beq_iff_eq] at h
  tauto

theorem pass_cases (c : Char) (h : (pyAlnum c || c == '-') = true) :
    ((48 ≤ c.toNat ∧ c.toNat ≤ 57) ∨ (65 ≤ c.toNat ∧ c.toNat ≤ 90) ∨
        (97 ≤ c.toNat ∧ c.toNat ≤ 122) ∨ c = '-') ∨
      c = 'μ' ∨ c = 'Μ' ∨ c = '中' := by
  simp only [pyAlnum, Bool.or_eq_true, Bool.and_eq_true, decide_eq_true_eq,
    beq_iff_eq] at h
  tauto

theorem ascii_alnum_keyChar (c : Char)
    (h : (48 ≤ c.toNat ∧ c.toNat ≤ 57) ∨ (65 ≤ c.toNat ∧ c.toNat ≤ 90) ∨
      (97 ≤ c.toNat ∧ c.toNat ≤ 122) ∨ c = '-') :
    keyChar (pyUpper c) = true := by
  have hm : ¬c = 'μ' := by
    intro e
    rw [e] at h
    rcases h with ⟨h1, h2⟩ | ⟨h1, h2⟩ | ⟨h1, h2⟩ | h1
    · exact absurd h2 (by decide)
    · exact absurd h2 (by decide)
    · exact absurd h2 (by decide)
    · exact absurd h1 (by decide)
  rw [pyUpper, if_neg hm]
  rcases h with ⟨h1, h2⟩ | ⟨h1, h2⟩ | ⟨h1, h2⟩ | rfl
  · rw [Char.toUpper, if_neg (by omega)]
    simp only [keyChar, Bool.or_eq_true, Bool.and_eq_true, decide_eq_true_eq]
    exact Or.inl (Or.inl ⟨h1, h2⟩)
  · rw [Char.toUpper, if_neg (by omega)]
    simp only [keyChar, Bool.or_eq_true, Bool.and_eq_true, decide_eq_true_eq]
    exact Or.inl (Or.inr ⟨h1, h2⟩)
  · rw [Char.toUpper, if_pos (by omega)]
    have hv : (c.toNat - 32).isValidChar := Or.inl (by omega)
    have ht : (Char.ofNat (c.toNat - 32)).toNat = c.toNat - 32 :=
      toNat_ofNat_valid _ hv
    simp only [keyChar, Bool.or_eq_true, Bool.and_eq_true, decide_eq_true_eq, ht]
    exact Or.inl (Or.inr ⟨by omega, by omega⟩)
  · decide

theorem pass_stableChar (c : Char) (h : (pyAlnum c || c == '-') = true) :
    stableChar (pyUpper c) = true := by
  rcases pass_cases c h with hA | rfl | rfl | rfl
  · simp only [stableChar, Bool.or_eq_true]
    exact Or.inl (Or.inl (ascii_alnum_keyChar c hA))
  · decide
  · decide
  · decide

theorem keyChar_stable (c : Char) (h : keyChar c = true) :
    nfkd c = [c] ∧ isCombining c = false ∧ c ≠ 'ß' ∧
      (pyAlnum c || c == '-') = true ∧ pyUpper c = c ∧
      c.isWhitespace = false := by
  rcases keyChar_cases c h with ⟨h1, h2⟩ | ⟨h1, h2⟩ | rfl
  · refine ⟨?_, ?_, ?_, ?_, ?_, ?_⟩
    · rw [nfkd, if_pos (by omega)]
    · rw [Bool.eq_false_iff]
      intro hcmb
      simp only [isCombining, Bool.and_eq_true, decide_eq_true_eq] at hcmb
      omega
    · intro e
      rw [e] at h2
      exact absurd h2 (by decide)
    · simp only [pyAlnum, Bool.or_eq_true, Bool.and_eq_true, decide_eq_true_eq,
        beq_iff_eq]
      tauto
    · rw [pyUpper, if_neg (by intro e; rw [e] at h2; exact absurd h2 (by decide)),
        Char.toUpper, if_neg (by omega)]
    · rw [Bool.eq_false_iff]
      intro hw
      simp only [Char.isWhitespace, Bool.or_eq_true, decide_eq_true_eq] at hw
      rcases hw with ((rfl | rfl) | rfl) | rfl <;> exact absurd h1 (by decide)
  · refine ⟨?_, ?_, ?_, ?_, ?_, ?_⟩
    · rw [nfkd, if_pos (by omega)]
    · rw [Bool.eq_false_iff]
      intro hcmb
      simp only [isCombining, Bool.and_eq_true, decide_eq_true_eq] at hcmb
      omega
    · intro e
      rw [e] at h2
      exact absurd h2 (by decide)
    · simp only [pyAlnum, Bool.or_eq_true, Bool.and_eq_true, decide_eq_true_eq,
        beq_iff_eq]
      tauto
    · rw [pyUpper, if_neg (by intro e; rw [e] at h2; exact absurd h2 (by decide)),
        Char.toUpper, if_neg (by omega)]
    · rw [Bool.eq_false_iff]
      intro hw
      simp only [Char.isWhitespace, Bool.or_eq_true, decide_eq_true_eq] at hw
      rcases hw with ((rfl | rfl) | rfl) | rfl <;> exact absurd h1 (by decide)
  · decide

theorem stableChar_stable (c : Char) (h : stableChar c = true) :
    nfkd c = [c] ∧ isCombining c = false ∧ c ≠ 'ß' ∧
      (pyAlnum c || c == '-') = true ∧ pyUpper c = c ∧
      c.isWhitespace = false := by
  have h2 : keyChar c = true ∨ c = 'Μ' ∨ c = '中' := by
    simp only [stableChar, Bool.or_eq_true, beq_iff_eq] at h
    tauto
  rcases h2 with hk | rfl | rfl
  · exact keyChar_stable c hk
  · decide
  · decide

theorem mem_pyStrip {l : List Char} {c : Char} (h : c ∈ pyStrip l) : c ∈ l := by
  rw [pyStrip] at h
  exact (List.dropWhile_sublist _).mem
    (List.mem_reverse.1 ((List.dropWhile_sublist _).mem (List.mem_reverse.1 h)))

theorem normChars_all_stable (l : List Char) :
    (normChars l).all stableChar = true := by
  rw [List.all_eq_true]
  intro c hc
  rw [normChars] at hc
  have hc2 := mem_pyStrip hc
  rw [List.mem_map] at hc2
  obtain ⟨d, hd, rfl⟩ := hc2
  exact pass_stableChar d (List.mem_filter.1 hd).2

theorem nfkdFlat_of_stable {l : List Char} (h : ∀ c ∈ l, stableChar c = true) :
    (l.map nfkd).flatten = l := by
  induction l with
  | nil => rfl
  | cons a t ih =>
    rw [List.map_cons, List.flatten_cons, (stableChar_stable a (h a (by simp))).1,
      ih (fun c hc => h c (by simp [hc]))]
    rfl

theorem replaceSS_of_stable {l : List Char} (h : ∀ c ∈ l, stableChar c = true) :
    replaceSS l = l := by
  induction l with
  | nil => rfl
  | cons a t ih =>
    rw [replaceSS, if_neg (stableChar_stable a (h a (by simp))).2.2.1,
      ih (fun c hc => h c (by simp [hc]))]

theorem map_pyUpper_of_stable {l : List Char} (h : ∀ c ∈ l, stableChar c = true) :
    l.map pyUpper = l := by
  induction l with
  | nil => rfl
  | cons a t ih =>
    rw [List.map_cons, (stableChar_stable a (h a (by simp))).2.2.2.2.1,
      ih (fun c hc => h c (by simp [hc]))]

theorem dropWhile_of_no_ws {l : List Char}
    (h : ∀ c ∈ l, Char.isWhitespace c = false) :
    l.dropWhile Char.isWhitespace = l := by
  cases l with
  | nil => rfl
  | cons a t => simp [List.dropWhile_cons, h a (by simp)]

theorem pyStrip_of_stable {l : List Char} (h : ∀ c ∈ l, stableChar c = true) :
    pyStrip l = l := by
  have hw : ∀ c ∈ l, Char.isWhitespace c = false :=
    fun c hc => (stableChar_stable c (h c hc)).2.2.2.2.2
  rw [pyStrip, dropWhile_of_no_ws hw,
    dropWhile_of_no_ws (fun c hc => hw c (List.mem_reverse.1 hc)),
    List.reverse_reverse]

theorem normChars_fixed {l : List Char} (h : ∀ c ∈ l, stableChar c = true) :
    normChars l = l := by
  have e2 : l.filter (fun c => !isCombining c) = l :=
    List.filter_eq_self.2
      (fun c hc => by rw [(stableChar_stable c (h c hc)).2.1]; rfl)
  have e4 : l.filter (fun c => pyAlnum c || c == '-') = l :=
    List.filter_eq_self.2 (fun c hc => (stableChar_stable c (h c hc)).2.2.2.1)
  rw [normChars, nfkdFlat_of_stable h, e2, replaceSS_of_stable h, e4,
    map_pyUpper_of_stable h, pyStrip_of_stable h]

theorem mem_replaceSS {l : List Char} {c : Char} (h : c ∈ replaceSS l) :
    c = 's' ∨ (c ∈ l ∧ c ≠ 'ß') := by
  induction l with
  | nil => simp [replaceSS] at h
  | cons a t ih =>
    rw [replaceSS] at h
    by_cases ha : a = 'ß'
    · rw [if_pos ha] at h
      rcases List.mem_cons.1 h with rfl | h2
      · exact Or.inl rfl
      rcases List.mem_cons.1 h2 with rfl | h3
      · exact Or.inl rfl
      rcases ih h3 with h4 | ⟨h5, h6⟩
      · exact Or.inl h4
      · exact Or.inr ⟨List.mem_cons_of_mem a h5, h6⟩
    · rw [if_neg ha] at h
      rcases List.mem_cons.1 h with h1 | h2
      · rw [h1]
        exact Or.inr ⟨List.mem_cons_self a t, ha⟩
      rcases ih h2 with h3 | ⟨h4, h5⟩
      · exact Or.inl h3
      · exact Or.inr ⟨List.mem_cons_of_mem a h4, h5⟩

theorem latin_normChars (l : List Char) (h : ∀ c ∈ l, latinChar c = true) :
    (normChars l).all keyChar = true := by
  rw [List.all_eq_true]
  intro c hc
  rw [normChars] at hc
  have hc2 := mem_pyStrip hc
  rw [List.mem_map] at hc2
  obtain ⟨d, hd, rfl⟩ := hc2
  have hpass := (List.mem_filter.1 hd).2
  have hd2 := (List.mem_filter.1 hd).1
  have hascii : d.toNat ≤ 0x7F := by
    rcases mem_replaceSS hd2 with rfl | ⟨hd3, hne⟩
    · decide
    · have hd4 := (List.mem_filter.1 hd3).1
      have hd5 : isCombining d = false := by
        have := (List.mem_filter.1 hd3).2
        simpa using this
      rw [List.mem_flatten] at hd4
      obtain ⟨m, hm, hdm⟩ := hd4
      rw [List.mem_map] at hm
      obtain ⟨e, he, rfl⟩ := hm
      have hlat := h e he
      simp only [latinChar, Bool.or_eq_true, decide_eq_true_eq, beq_iff_eq] at hlat
      rcases hlat with (hA | rfl) | hC
      · rw [nfkd, if_pos hA, List.mem_singleton] at hdm
        subst hdm
        exact hA
      · have hb : nfkd 'ß' = ['ß'] := by decide
        rw [hb, List.mem_singleton] at hdm
        exact absurd hdm hne
      · have hall := List.all_eq_true.1 hC d hdm
        simp only [Bool.or_eq_true, decide_eq_true_eq] at hall
        rcases hall with hA | hB
        · exact hA
        · rw [hd5] at hB
          cases hB
  rcases pass_cases d hpass with hA | rfl | rfl | rfl
  · exact ascii_alnum_keyChar d hA
  · exact absurd hascii (by decide)
  · exact absurd hascii (by decide)
  · exact absurd hascii (by decide)

/-! ### Concrete catalog tables used by the claim theorems -/

/-- Catalog for C1: `A` is a kit of 2 x `B`, with 10 units of `A` in stock. -/
def psC1 : List Produto :=
  [⟨"A", "Kit A", 10, "sim", "B", "2"⟩, ⟨"B", "Componente B", 0, "", "", ""⟩]

/-- Catalog for C2: `A` is a kit of 2 x `B`, with 5 units of `A` in stock. -/
def psC2 : List Produto := [⟨"A", "Kit A", 5, "sim", "B", "2"⟩]

/-- Catalog for C3: two rows with the same key `A` (stock 2 and 3). -/
def psC3 : List Produto :=
  [⟨"A", "Produto A", 2, "", "", ""⟩, ⟨"A", "Produto A bis", 3, "", "", ""⟩]

/-- Catalog for C4: kit `K` has two component codes but one multiplier
(mismatched lengths); kit `W` is well-formed. -/
def psC4 : List Produto :=
  [⟨"K", "Kit K", 0, "sim", "B,C", "1"⟩, ⟨"W", "Kit W", 0, "sim", "Z", "1"⟩]

/-- Catalog for C5: product `A` with a NEGATIVE on-hand quantity. -/
def psC5 : List Produto := [⟨"A", "Produto A", -2, "", "", ""⟩]

/-- The faltantes row the C5 run produces. -/
def rC5 : FaltaRow := ⟨"A", "Produto A", -2, 3, 5, "Produto/Componente"⟩

/-- Catalog for C6: kit `A` lists ITSELF as its only component (a cycle). -/
def psC6 : List Produto := [⟨"A", "Kit ciclico", 0, "sim", "A", "2"⟩]

/-- Catalog for C10: one well-formed kit so that expansion aggregates. -/
def psC10 : List Produto := [⟨"W", "Kit W", 0, "sim", "Z", "1"⟩]

/-! ### Claim theorems -/

/-- Claim C1, counterexample: in `psC1` the stock of `A` is 10, the demand
is 8 (so stock covers demand), yet the expansion still routes 16 units of
`B` downstream — not the zero contribution the claim asserts. -/
theorem c1_counterexample :
    Option.map (fun p => p.estoque_atual) (estoque_map psC1 "A") = some 10 ∧
      totalFor "B" (expandir_kits psC1 [("A", 8)]) = 16 ∧ (16 : Int) ≠ 0 := by
  decide

/-- Claim C1, amended: kit expansion never consults stock at all — its
output is invariant under arbitrary changes to every on-hand quantity, so
the full demand (not the shortfall) propagates to components; the only
stock gate is in the faltantes report, which omits the row of a code whose
on-hand quantity covers its (already expanded) demand. -/
theorem c1_amended :
    (∀ (ps : List Produto) (f : List (String × Int)) (g : Produto → Int),
        expandir_kits (ps.map (updEst g)) f = expandir_kits ps f) ∧
      (∀ (ps : List Produto) (l : Linha) (prod : Produto),
        estoque_map ps l.codigo_key = some prod →
        l.quantidade ≤ prod.estoque_atual → faltantes ps [l] = []) := by
  constructor
  · intro ps f g
    simp only [expandir_kits, kitsOf_updEst]
  · intro ps l prod h1 h2
    simp [faltantes, faltaLine, h1, not_lt.2 h2]

/-- Witness for C1: concrete instantiation of both amended conjuncts. -/
theorem c1_witness :
    expandir_kits (psC1.map (updEst (fun _ => 0))) [("A", 8)] =
        expandir_kits psC1 [("A", 8)] ∧
      faltantes psC1 [⟨"A", 8⟩] = [] :=
  ⟨c1_amended.1 psC1 [("A", 8)] (fun _ => 0),
    c1_amended.2 psC1 ⟨"A", 8⟩ ⟨"A", "Kit A", 10, "sim", "B", "2"⟩ (by decide)
      (by decide)⟩

/-- Claim C2, counterexample: with stock `A` = 5, demand `A` = 8 and `A` a
kit of 2 x `B`, the code routes 16 (demand times multiplier) to `B`, not
the 6 (shortfall times multiplier) the claim asserts. -/
theorem c2_counterexample :
    totalFor "B" (expandir_kits psC2 [("A", 8)]) = 16 ∧
      (16 : Int) ≠ (8 - 5) * 2 := by
  decide

/-- Claim C2, amended: for a kit line, each component key receives a child
demand of (full demanded quantity) times (its multiplier), summed over its
occurrences in the component list; stock and shortfall play no role. -/
theorem c2_amended (ps : List Produto) (c : String) (q : Int)
    (comps : List (String × Int)) (k : String)
    (h : dlookup (kitsOf ps) (normalize_key c) = some comps) :
    totalFor k (expandir_kits ps [(c, q)]) = q * sumMults k comps := by
  rw [totalFor_expandir]
  simp only [List.map_cons, List.map_nil, List.sum_cons, List.sum_nil, add_zero]
  have hl : lineContrib (kitsOf ps) k (c, q) = q * sumMults k comps := by
    rw [lineContrib]
    show (match dlookup (kitsOf ps) (normalize_key c) with
      | some comps => q * sumMults k comps
      | Option.none => if normalize_key c = k then q else 0) = _
    rw [h]
  rw [hl]

/-- Witness for C2: the amended statement at the concrete C2 catalog. -/
theorem c2_witness :
    totalFor "B" (expandir_kits psC2 [("A", 8)]) = 8 * sumMults "B" [("B", 2)] :=
  c2_amended psC2 "A" 8 [("B", 2)] "B" (by decide)

/-- Claim C3, counterexample: with two stock rows for the key `A` (2 and
3 units), the lookup returns 3 (the last row), not the sum 5 the claim
asserts. -/
theorem c3_counterexample :
    Option.map (fun p => p.estoque_atual) (estoque_map psC3 "A") = some 3 ∧
      some (3 : Int) ≠ some (2 + 3) := by
  decide

/-- Claim C3, amended: duplicate codes in the stock table are resolved by
last-write-wins, never by summation: appending a row makes its key resolve
to exactly that row, and every other key is unaffected.  (Both dicts cited
by the claim — `estoque_map` of the faltantes report and `est_map` of
`processar_faturamento` — are built by per-row assignment.) -/
theorem c3_amended (ps : List Produto) (p : Produto) (k : String) :
    estoque_map (ps ++ [p]) k =
      if pkey p = k then some p else estoque_map ps k := by
  rw [estoque_map, List.map_append, List.map_cons, List.map_nil]
  exact dlookup_append_single _ _ _ _

/-- Claim C4, counterexample: kit `K` of `psC4` has component list `B,C`
but multiplier list `1`; the claim says such a node is hard-errored (no
output from it), yet its demand of 4 passes straight through under the key
`K` itself. -/
theorem c4_counterexample :
    totalFor "K" (expandir_kits psC4 [("K", 4), ("X", 2)]) = 4 ∧
      (4 : Int) ≠ 0 := by
  decide

/-- Claim C4, amended: a kit row whose component and multiplier lists have
different lengths is SILENTLY dropped from the kit table (no diagnostic of
any kind exists in the output), so its children are never traversed and
its demand passes through unchanged as an ordinary product line, while
unaffected demands are processed normally. -/
theorem c4_amended :
    (∀ p : Produto, kitRowSim p = true →
        (compsOf p).length ≠ (quantsOf p).length → kitEntry p = Option.none) ∧
      totalFor "K" (expandir_kits psC4 [("K", 4), ("X", 2)]) = 4 ∧
      totalFor "B" (expandir_kits psC4 [("K", 4), ("X", 2)]) = 0 ∧
      totalFor "C" (expandir_kits psC4 [("K", 4), ("X", 2)]) = 0 ∧
      totalFor "X" (expandir_kits psC4 [("K", 4), ("X", 2)]) = 2 := by
  refine ⟨?_, by decide, by decide, by decide, by decide⟩
  intro p hsim hlen
  rw [kitEntry, if_neg]
  intro hc
  exact hlen hc.2.2.2

/-- Witness for C4: the mismatched kit row of `psC4` yields no kit entry. -/
theorem c4_witness : kitEntry ⟨"K", "Kit K", 0, "sim", "B,C", "1"⟩ = Option.none :=
  c4_amended.1 ⟨"K", "Kit K", 0, "sim", "B,C", "1"⟩ (by decide) (by decide)

/-- Claim C5, counterexample: with stock `A` = -2 and demand 3, the code
reports `falta = 5`, while the claimed formula
`max(0, demand - max(0, stock))` gives 3; the reported shortfall exceeds
the demand. -/
theorem c5_counterexample :
    (faltantes psC5 [⟨"A", 3⟩]).map (fun r => r.falta) = [5] ∧
      ¬((5 : Int) = max 0 (3 - max 0 (-2 : Int))) := by
  decide

/-- Claim C5, amended: every reported faltantes row satisfies
`falta = qtd_necessaria - estoque_atual` on the RAW stock value (an
unregistered code is reported with stock 0), so a negative on-hand
quantity is subtracted as-is and the reported shortfall can exceed the
demand. -/
theorem c5_amended (ps : List Produto) (v : List Linha) (r : FaltaRow)
    (h : r ∈ faltantes ps v) :
    r.falta = r.qtd_necessaria - r.estoque_atual := by
  induction v with
  | nil => simp [faltantes] at h
  | cons a t ih =>
    rw [faltantes, List.flatMap_cons] at h
    rcases List.mem_append.1 h with h1 | h2
    · cases he : estoque_map ps a.codigo_key with
      | none =>
        rw [faltaLine, he] at h1
        simp at h1
        rw [h1]
        simp
      | some prod =>
        rw [faltaLine, he] at h1
        by_cases hlt : prod.estoque_atual < a.quantidade
        · simp [hlt] at h1
          rw [h1]
        · simp [hlt] at h1
    · exact ih h2

/-- Witness for C5: the concrete row of the C5 run. -/
theorem c5_witness : rC5.falta = rC5.qtd_necessaria - rC5.estoque_atual :=
  c5_amended psC5 [⟨"A", 3⟩] rC5 (by decide)

/-- Claim C6: the kit expansion is a single terminating pass for EVERY
structure table, including cyclic ones: (i) the quantity accumulated on
any key decomposes as the sum of one contribution per demand line (each
line is counted exactly once, components are never re-expanded); (ii) on
the concrete catalog in which kit `A` lists itself as a component, the
expansion of a demand of 3 terminates with the single line `A = 6`.
Termination itself is by construction: `expandir_kits` is a total
structurally-recursive function. -/
theorem c6_single_pass :
    (∀ (ps : List Produto) (a : String × Int) (f : List (String × Int))
        (k : String),
        totalFor k (expandir_kits ps (a :: f)) =
          lineContrib (kitsOf ps) k a +
            (f.map (lineContrib (kitsOf ps) k)).sum) ∧
      expandir_kits psC6 [("A", 3)] = [⟨"A", 6⟩] := by
  constructor
  · intro ps a f k
    rw [totalFor_expandir, List.map_cons, List.sum_cons]
  · decide

/-- Claim C7: exploding the concatenation of two blocks of demand lines
accumulates, on every leaf key, exactly the sum of the two blocks'
individual contributions, and the total is unchanged when the two blocks
are processed in the opposite order. -/
theorem c7_additivity (ps : List Produto) (a : String × Int)
    (f₁ : List (String × Int)) (b : String × Int) (f₂ : List (String × Int))
    (k : String) :
    totalFor k (expandir_kits ps ((a :: f₁) ++ (b :: f₂))) =
        totalFor k (expandir_kits ps (a :: f₁)) +
          totalFor k (expandir_kits ps (b :: f₂)) ∧
      totalFor k (expandir_kits ps ((b :: f₂) ++ (a :: f₁))) =
        totalFor k (expandir_kits ps ((a :: f₁) ++ (b :: f₂))) := by
  constructor
  · rw [totalFor_expandir, totalFor_expandir, totalFor_expandir,
      List.map_append, List.sum_append]
  · rw [totalFor_expandir, totalFor_expandir, List.map_append, List.map_append,
      List.sum_append, List.sum_append, add_comm]

/-- Claim C8: `normalize_key` is idempotent —
`normalize_key (normalize_key s) = normalize_key s` for every string. -/
theorem c8_normalize_key_idem (s : String) :
    normalize_key (normalize_key s) = normalize_key s :=
  congrArg String.mk
    (normChars_fixed
      (fun c hc => List.all_eq_true.1 (normChars_all_stable s.data) c hc))

/-- Claim C9: the defensive numeric parsers are total functions that fall
back to the supplied default whenever the input does not parse: in
general, `safe_int` returns the default exactly on the unparsable inputs
(`safe_int_opt` is its parsing core), and concretely `None`, `NaN`,
blank-ish strings and malformed numeric text give the default while
locale-ambiguous text such as `"12,5"` parses, and `parse_int_list`
returns a list in every case, skipping the unparsable parts. -/
theorem c9_defensive_parsing :
    (∀ (x : PyVal) (d : Int), safe_int_opt x = Option.none → safe_int x d = d) ∧
      (∀ d : Int,
        safe_int .none d = d ∧ safe_int .nan d = d ∧
        safe_int (.str "") d = d ∧ safe_int (.str "   ") d = d ∧
        safe_int (.str "N/A") d = d ∧ safe_int (.str "abc") d = d ∧
        safe_int (.str "1.2.3") d = d ∧ safe_int (.str "12,5") d = 12 ∧
        safe_int (.str " -7 ") d = -7) ∧
      parse_int_list .none = [] ∧ parse_int_list .nan = [] ∧
      parse_int_list (.str "1,2, 3") = [1, 2, 3] ∧
      parse_int_list (.str "1,abc,,3") = [1, 3] := by
  refine ⟨fun x d h => ?_, fun d => ?_, by decide, by decide, by decide, by decide⟩
  · rw [safe_int, h]
    rfl
  · exact ⟨rfl, rfl, rfl, rfl, rfl, rfl, rfl, rfl, rfl⟩

/-- Witness for C9: a malformed string falls back to the default 0. -/
theorem c9_witness : safe_int (.str "12.3.4") 0 = 0 :=
  c9_defensive_parsing.1 (.str "12.3.4") 0 (by decide)

/-- One-character string holding the micro sign (U+00B5), written by code
point to pin down the exact character. -/
def microStr : String := ⟨[Char.ofNat 0xB5]⟩

/-- One-character string holding the Greek capital mu (U+039C). -/
def capMuStr : String := ⟨[Char.ofNat 0x39C]⟩

/-- Two-character string: the CJK ideograph U+4E2D followed by `A`. -/
def cjkAStr : String := ⟨[Char.ofNat 0x4E2D, 'A']⟩

/-- Claim C10, counterexample: Python `isalnum` is Unicode-wide, so
normalization keeps non-Latin alphanumerics.  `normalize_key "中A"` is
`"中A"` itself — not a string of ASCII uppercase letters, digits and
hyphens — and it does NOT collapse to the key of `"A"`, although the two
codes differ only by a character outside the claimed alphabet; likewise
the micro sign is NFKD-decomposed to Greek mu and uppercased to the Greek
capital mu, again outside the claimed alphabet. -/
theorem c10_counterexample :
    normalize_key cjkAStr = cjkAStr ∧
      ((normalize_key cjkAStr).data.all keyChar) = false ∧
      normalize_key cjkAStr ≠ normalize_key "A" ∧
      normalize_key microStr = capMuStr ∧
      ((normalize_key microStr).data.all keyChar) = false := by
  decide

/-- Claim C10, amended: restricted to the Latin repertoire (`latinChar`:
ASCII characters, ß, and accented Latin letters that decompose to an
ASCII base plus combining marks) the claim holds — every character of a
normalized key is an ASCII digit, an ASCII uppercase letter, or a hyphen,
and raw codes differing only in case, accents, or characters outside that
alphabet collapse to the same key and are aggregated as a single product
by the expansion.  Outside that repertoire other Unicode alphanumerics
(Greek, CJK, ...) survive normalization, as the counterexample shows. -/
theorem c10_amended :
    (∀ s : String, s.data.all latinChar = true →
        ((normalize_key s).data.all keyChar) = true) ∧
      normalize_key "Café_01" = normalize_key "CAFE 01" ∧
      normalize_key "ábc" = normalize_key "ABC" ∧
      normalize_key "A B-1" = normalize_key "a_b-1" ∧
      totalFor "CAFE01"
          (expandir_kits psC10 [("Café_01", 2), ("cafe 01", 3)]) = 5 := by
  exact ⟨fun s hs =>
      latin_normChars s.data (fun c hc => List.all_eq_true.1 hs c hc),
    by decide, by decide, by decide, by decide⟩

/-- Witness for C10: the Latin-repertoire hypothesis discharged at a
concrete accented code. -/
theorem c10_witness : ((normalize_key "Café_01").data.all keyChar) = true :=
  c10_amended.1 "Café_01" (by decide)
